import Mathlib

/-!
Verification of the tvstreamer TradingView client.

Python strings are modelled as `List Char` (Python `len`, slicing and regex
all operate on code points, exactly as `List Char` does).  Machine floats in
the decoded frames are modelled as `ℚ` (all values appearing in the claims
are decimally exact).  Fallible Python code is modelled with `Except`.
-/

namespace TvStreamer

/-! ## Decimal rendering and parsing

Python renders an integer with `str(n)` / an f-string and parses digit runs
with `int(s)`.  `natToChars` is the usual base-10 rendering (no sign, no
leading zeros, `0 ↦ "0"`), `charsToNat` the left fold Python `int` performs
on a digit string. -/

def digitChar (d : Nat) : Char := Char.ofNat (48 + d)

/-- Little-endian base-10 digit characters of `n`; the fuel argument makes the
recursion structural so closed instances evaluate inside the kernel. -/
def natToCharsAux : Nat → Nat → List Char
  | 0, _ => []
  | fuel + 1, n => if n = 0 then [] else digitChar (n % 10) :: natToCharsAux fuel (n / 10)

def natToChars (n : Nat) : List Char :=
  if n = 0 then ['0'] else (natToCharsAux n n).reverse

def charsToNat (ds : List Char) : Nat :=
  ds.foldl (fun acc c => 10 * acc + (c.toNat - 48)) 0

/-! ## UTF-8 byte length

Number of bytes of the UTF-8 encoding of a code point / of a string; this is
what `len(payload.encode())` computes in Python. -/

def utf8CharLen (c : Char) : Nat :=
  if c.toNat < 0x80 then 1
  else if c.toNat < 0x800 then 2
  else if c.toNat < 0x10000 then 3
  else 4

def utf8Length (s : List Char) : Nat := (s.map utf8CharLen).sum

/-! ## Framing codec: the three encoders

`tvstreamer/wsclient.py`, `TvWSClient._prepend_header` (lines 222-226):
`return f"~m~{len(payload)}~m~{payload}"` — `len` counts code points. -/

def wsPrependHeader (payload : List Char) : List Char :=
  '~' :: 'm' :: '~' :: (natToChars payload.length ++ ('~' :: 'm' :: '~' :: payload))

/-- Framing inside `tvstreamer/historic.py`, `_tv_msg` (lines 53-55):
same f-string as `wsPrependHeader`, length again via `len(payload)`. -/
def tvMsgHeader (payload : List Char) : List Char :=
  '~' :: 'm' :: '~' :: (natToChars payload.length ++ ('~' :: 'm' :: '~' :: payload))

/-- `tvstreamer/connection.py`, `TradingViewConnection._prepend_header`
(lines 51-53): `return f"~m~{len(payload.encode())}~m~{payload}"` — the UTF-8
byte length. -/
def connPrependHeader (payload : List Char) : List Char :=
  '~' :: 'm' :: '~' :: (natToChars (utf8Length payload) ++ ('~' :: 'm' :: '~' :: payload))

/-- The form the spec claims for `encode`: header advertises the UTF-8 byte
length of the payload. -/
def specEncodeByteLen (payload : List Char) : List Char :=
  '~' :: 'm' :: '~' :: (natToChars (utf8Length payload) ++ ('~' :: 'm' :: '~' :: payload))

/-! ## Frame splitter

`tvstreamer/wsclient.py`, `TvWSClient._reader_loop` (lines 326-345): the loop
repeatedly applies `re.match(r"~m~(\d+)~m~", buffer)`.  An anchored match of
that pattern is: the three characters `~m~`, a maximal nonempty digit run
(maximal because backtracking `\d+` cannot give a digit back and still match
the literal `~`), then `~m~` again.  `matchHeader` returns
`(frame_len, header_len)` of the source, `header_len` being `match.end()`. -/

def stripTm (b : List Char) : Option (List Char) :=
  match b with
  | '~' :: 'm' :: '~' :: rest => some rest
  | _ => none

theorem stripTm_eq_some {b rest : List Char} :
    stripTm b = some rest ↔ b = '~' :: 'm' :: '~' :: rest := by
  constructor
  · intro h
    unfold stripTm at h
    split at h
    · simp only [Option.some_inj] at h; subst h; rfl
    · simp at h
  · rintro rfl; rfl

def matchHeader (b : List Char) : Option (Nat × Nat) :=
  match stripTm b with
  | none => none
  | some rest =>
      let ds := rest.takeWhile Char.isDigit
      if ds.isEmpty then none
      else
        match stripTm (rest.drop ds.length) with
        | some _ => some (charsToNat ds, 6 + ds.length)
        | none => none

theorem takeWhile_all_append_cons {p : Char → Bool} {l1 : List Char}
    (h1 : ∀ c ∈ l1, p c = true) {x : Char} (hx : p x = false) (l2 : List Char) :
    (l1 ++ x :: l2).takeWhile p = l1 := by
  induction l1 with
  | nil => simp [List.takeWhile, hx]
  | cons c l1 ih =>
      have hc : p c = true := h1 c (by simp)
      have h1' : ∀ c ∈ l1, p c = true := fun c hmem => h1 c (by simp [hmem])
      simp [List.takeWhile, hc, ih h1']

theorem matchHeader_some_iff {b : List Char} {flen hlen : Nat} :
    matchHeader b = some (flen, hlen) ↔
      ∃ ds tail, b = '~' :: 'm' :: '~' :: (ds ++ ('~' :: 'm' :: '~' :: tail))
        ∧ ds ≠ [] ∧ (∀ c ∈ ds, c.isDigit = true)
        ∧ flen = charsToNat ds ∧ hlen = 6 + ds.length := by
  constructor
  · intro h
    unfold matchHeader at h
    cases hs : stripTm b with
    | none => rw [hs] at h; simp at h
    | some rest =>
        rw [hs] at h
        simp only at h
        rw [stripTm_eq_some] at hs
        subst hs
        by_cases hemp : (rest.takeWhile Char.isDigit).isEmpty
        · simp [hemp] at h
        · rw [if_neg hemp] at h
          cases hs2 : stripTm (rest.drop (rest.takeWhile Char.isDigit).length) with
          | none => rw [hs2] at h; simp at h
          | some tail =>
              rw [hs2] at h
              simp only [Option.some_inj, Prod.mk.injEq] at h
              rw [stripTm_eq_some] at hs2
              obtain ⟨t, ht⟩ := List.takeWhile_prefix (p := Char.isDigit) (l := rest)
              have hdrop := congrArg (List.drop (rest.takeWhile Char.isDigit).length) ht
              rw [List.drop_left] at hdrop
              rw [← hdrop] at hs2
              subst hs2
              refine ⟨rest.takeWhile Char.isDigit, tail, ?_, ?_, ?_, h.1.symm, h.2.symm⟩
              · conv_lhs => rw [← ht]
              · intro hcon; rw [hcon] at hemp; simp at hemp
              · intro c hc; exact List.mem_takeWhile_imp hc
  · rintro ⟨ds, tail, rfl, hne, hdig, rfl, rfl⟩
    unfold matchHeader
    rw [(stripTm_eq_some).mpr rfl]
    simp only
    have htw : ((ds ++ ('~' :: 'm' :: '~' :: tail)).takeWhile Char.isDigit) = ds :=
      takeWhile_all_append_cons hdig (by decide) _
    rw [htw]
    have hemp : ¬ ds.isEmpty := by simp [List.isEmpty_iff, hne]
    rw [if_neg hemp]
    have hdrop : (ds ++ ('~' :: 'm' :: '~' :: tail)).drop ds.length
        = '~' :: 'm' :: '~' :: tail := List.drop_left _ _
    rw [hdrop]
    rfl

theorem matchHeader_hlen_le {b : List Char} {flen hlen : Nat}
    (h : matchHeader b = some (flen, hlen)) : 7 ≤ hlen := by
  rw [matchHeader_some_iff] at h
  obtain ⟨ds, tail, rfl, hne, hdig, rfl, rfl⟩ := h
  have : 1 ≤ ds.length := List.length_pos.mpr hne
  omega

/-- The splitter loop of `_reader_loop`: consume complete frames from the
front of the buffer (`payload = buffer[header_len:total_len]`,
`buffer = buffer[total_len:]`), stopping when no header matches or when the
declared length exceeds the data at hand; the leftover is the carry-over
remainder. -/
def splitFrames (b : List Char) : List (List Char) × List Char :=
  match hm : matchHeader b with
  | none => ([], b)
  | some (flen, hlen) =>
    if h : hlen + flen ≤ b.length then
      have hlt : (b.drop (hlen + flen)).length < b.length := by
        have h7 := matchHeader_hlen_le hm
        simp only [List.length_drop]
        omega
      let rest := splitFrames (b.drop (hlen + flen))
      ((b.drop hlen).take flen :: rest.1, rest.2)
    else ([], b)
termination_by b.length
decreasing_by exact hlt

/-! ## Reader loop step

One iteration of `TvWSClient._reader_loop` (wsclient.py lines 304-345) after a
successful `recv`.  A frame starting with the envelope marker and containing a
heartbeat marker is echoed back verbatim and the iteration ends (`continue`)
before the buffer or the payload parser is ever touched.  Otherwise the raw
text joins the buffer and every complete frame is handed to
`_handle_payload`, modelled here as an abstract `handle` so the step is
independent of the decoder. -/

def startsWithTm (raw : List Char) : Bool :=
  match raw with
  | '~' :: 'm' :: '~' :: _ => true
  | _ => false

def startsWithList : List Char → List Char → Bool
  | [], _ => true
  | _ :: _, [] => false
  | p :: ps, c :: cs => p == c && startsWithList ps cs

/-- Python substring test `pat in s`. -/
def hasSubstring (s pat : List Char) : Bool :=
  startsWithList pat s ||
    (match s with
     | [] => false
     | _ :: cs => hasSubstring cs pat)

def containsHeartbeat (raw : List Char) : Bool :=
  hasSubstring raw ['~', 'h', '~']

structure ReaderState (E : Type) where
  buffer : List Char
  sent : List (List Char)
  events : List E

def readerStep {E : Type} (handle : List Char → List E)
    (st : ReaderState E) (raw : List Char) : ReaderState E :=
  if startsWithTm raw && containsHeartbeat raw then
    { st with sent := st.sent ++ [raw] }
  else
    let buf := st.buffer ++ raw
    let split := splitFrames buf
    { st with buffer := split.2, events := st.events ++ split.1.flatMap handle }

/-! ## JSON values and Python dynamic semantics

`_handle_payload` (wsclient.py lines 353-441) inspects the structure
`json.loads` produced.  `Json` is that parsed tree (numbers as `ℚ`, which is
exact for every decimal literal on this wire).  The `py…` helpers model the
Python primitives the function applies to it; each returns `Except` so a
`TypeError`/`KeyError`/`IndexError` the interpreter would raise is explicit. -/

inductive Json where
  | null
  | bool (b : Bool)
  | num (q : ℚ)
  | str (s : String)
  | arr (xs : List Json)
  | obj (fields : List (String × Json))

/-- Python truthiness `bool(x)` for parsed-JSON values. -/
def pyTruthy : Json → Bool
  | .null => false
  | .bool b => b
  | .num q => decide (q ≠ 0)
  | .str s => !(s = "")
  | .arr xs => !xs.isEmpty
  | .obj fs => !fs.isEmpty

/-- Python `len(x)`: defined for str, list and dict; `TypeError` otherwise. -/
def pyLen : Json → Except String Nat
  | .str s => .ok s.length
  | .arr xs => .ok xs.length
  | .obj fs => .ok fs.length
  | _ => .error "TypeError: len"

/-- Python `x[i]` with a nonnegative int index: list element, one-character
string for a str, `KeyError` for a dict (its keys here are strings),
`TypeError` otherwise. -/
def pyIndex (j : Json) (i : Nat) : Except String Json :=
  match j with
  | .arr xs => if h : i < xs.length then .ok (xs.get ⟨i, h⟩) else .error "IndexError"
  | .str s => if h : i < s.length then .ok (.str (String.mk [s.data.get ⟨i, by simpa using h⟩]))
              else .error "IndexError"
  | .obj _ => .error "KeyError"
  | _ => .error "TypeError: subscript"

/-- Python `for x in j`: list elements, dict keys, characters of a str;
`TypeError` otherwise. -/
def pyIter : Json → Except String (List Json)
  | .arr xs => .ok xs
  | .obj fs => .ok (fs.map fun f => .str f.1)
  | .str s => .ok (s.data.map fun c => .str (String.mk [c]))
  | _ => .error "TypeError: not iterable"

/-- Python `d.get(k)` / `d.get(k, default)` (the `Option` is the hit);
`AttributeError` when the receiver is not a dict. -/
def pyGet (j : Json) (k : String) : Except String (Option Json) :=
  match j with
  | .obj fs => .ok (fs.lookup k)
  | _ => .error "AttributeError: get"

/-- Python `float(x)` on the values reaching it in these frames (JSON numbers
and bools); anything else raises. -/
def pyFloat : Json → Except String ℚ
  | .num q => .ok q
  | .bool b => .ok (if b then 1 else 0)
  | _ => .error "TypeError: float"

/-- Truncation toward zero, how Python `int()` rounds a float. -/
def ratTrunc (q : ℚ) : ℤ := q.num / (q.den : ℤ)

/-- Python `int(x)` for numeric values. -/
def pyInt : Json → Except String ℤ
  | .num q => .ok (ratTrunc q)
  | .bool b => .ok (if b then 1 else 0)
  | _ => .error "TypeError: int"

/-! ## Decoded events

`tvstreamer/events.py`: `Tick` and `Bar` dataclasses, plus the status dict the
`series_completed` branch enqueues.  `Bar` receives the wire values unchanged
(`open=bar_data[1]`, … with no conversion), so those fields stay `Json`;
timestamps are epoch seconds (UTC) as `ℚ`. -/

structure TickE where
  ts : ℚ
  price : ℚ
  volume : ℚ
  symbol : Json

structure BarE where
  ts : ℚ
  o : Json
  hi : Json
  lo : Json
  close : Json
  volume : Json
  symbol : String
  interval : String
  closed : Bool

inductive Event where
  | tick (t : TickE)
  | completed (subKey : Json)
  | bar (b : BarE)

/-! ## The payload handler

`TvWSClient._handle_payload`.  `regexUpd` is the oracle for
`self._re_tick.search(payload)`: the parsed `upd` digit group when that regex
matches the raw payload text, `none` when it does not (on real `qsd` frames
the pattern `qsd` followed only by literal dots and then `"lp":` never
matches, so the fallback yields `none`).  `series` is the `self._series`
registry mapping a series id to its `Subscription (symbol, interval)`. -/

def qsdFromInfo (regexUpd : Option ℕ) (info : List (String × Json)) :
    Except String (Option Json × ℚ × ℚ × Option ℚ) := do
  let symbol := info.lookup "n"
  let v := (info.lookup "v").getD (Json.obj [])
  let price ← pyFloat ((← pyGet v "lp").getD (Json.num 0))
  let volume ← pyFloat ((← pyGet v "volume").getD (Json.num 0))
  let tsMs ← pyGet v "upd"
  let tsTruthy := match tsMs with
    | some t => pyTruthy t
    | none => false
  let ts : Option ℚ ←
    if tsTruthy then do
      let i ← pyInt (tsMs.getD Json.null)
      pure (some ((i : ℚ) / 1000))
    else
      pure (regexUpd.map fun g => ((g : ℚ) / 1000))
  pure (symbol, price, volume, ts)

def qsdStep (regexUpd : Option ℕ) (msg : List (String × Json)) (params : Json) :
    Except String (List Event) := do
  let plen ← pyLen params
  let (symbol, price?, volume?, ts?) ←
    if plen > 1 then do
      let p1 ← pyIndex params 1
      match p1 with
      | .obj info => do
          let (s, p, v, t) ← qsdFromInfo regexUpd info
          pure (s, some p, some v, t)
      | _ => pure ((none : Option Json), (none : Option ℚ), (none : Option ℚ), (none : Option ℚ))
    else
      pure ((none : Option Json), (none : Option ℚ), (none : Option ℚ), (none : Option ℚ))
  let (price?, volume?, ts?) ←
    match price? with
    | some _ => pure (price?, volume?, ts?)
    | none =>
        if (msg.lookup "lp").isSome then do
          let p ← pyFloat ((msg.lookup "lp").getD (Json.num 0))
          let v ← pyFloat ((msg.lookup "volume").getD (Json.num 0))
          let upd := msg.lookup "upd"
          let updTruthy := match upd with
            | some u => pyTruthy u
            | none => false
          let t : Option ℚ ←
            if updTruthy then do
              let i ← pyInt (upd.getD Json.null)
              pure (some ((i : ℚ) / 1000))
            else
              pure (regexUpd.map fun g => ((g : ℚ) / 1000))
          pure (some p, some v, t)
        else
          pure (price?, volume?, ts?)
  match price?, volume?, ts? with
  | some pr, some vo, some t =>
      let sym := match symbol with
        | some s => if pyTruthy s then s else (msg.lookup "n").getD (Json.str "")
        | none => (msg.lookup "n").getD (Json.str "")
      pure [Event.tick ⟨t, pr, vo, sym⟩]
  | _, _, _ => pure []

def completedStep (params : Json) : Except String (List Event) := do
  let plen ← pyLen params
  let subKey ← if plen > 1 then pyIndex params 1 else pure (Json.str "")
  pure [Event.completed subKey]

/-- The registry probe `self._series.get(series_id)`: a dict keyed by
strings, so a non-string series id finds nothing. -/
def seriesLookup (series : List (String × String × String)) (seriesId : Json) :
    Option (String × String) :=
  match seriesId with
  | .str s => series.lookup s
  | _ => none

def duLoop (series : List (String × String × String)) (seriesId : Json) :
    List Json → Except String (List Event)
  | [] => .ok []
  | bd :: rest => do
      let blen ← pyLen bd
      if blen < 6 then duLoop series seriesId rest
      else do
        let c0 ← pyIndex bd 0
        let q0 ← pyFloat c0
        let tsEpoch := if q0 > (10 ^ 12 : ℚ) then q0 / 1000 else q0
        match seriesLookup series seriesId with
        | none => duLoop series seriesId rest
        | some (sym, itv) => do
            let closed ←
              if blen > 6 then do
                let c6 ← pyIndex bd 6
                pure (pyTruthy c6)
              else pure false
            let o ← pyIndex bd 1
            let hi ← pyIndex bd 2
            let lo ← pyIndex bd 3
            let cl ← pyIndex bd 4
            let vo ← pyIndex bd 5
            let evs ← duLoop series seriesId rest
            pure (Event.bar ⟨tsEpoch, o, hi, lo, cl, vo, sym, itv, closed⟩ :: evs)

def duStep (series : List (String × String × String)) (params : Json) :
    Except String (List Event) := do
  let plen ← pyLen params
  if plen < 2 then pure []
  else do
    let seriesId ← pyIndex params 0
    let bars ← pyIndex params 1
    let items ← pyIter bars
    duLoop series seriesId items

/-- `TvWSClient._handle_payload` after `json.loads` succeeded (a non-JSON
payload returns before any of this runs and emits nothing). -/
def handlePayload (series : List (String × String × String)) (regexUpd : Option ℕ)
    (msg : Json) : Except String (List Event) :=
  match msg with
  | .obj fields =>
      match fields.lookup "m" with
      | none => .ok []
      | some method =>
          let params := (fields.lookup "p").getD (Json.arr [])
          match method with
          | .str m =>
              if m = "qsd" then qsdStep regexUpd fields params
              else if m = "series_completed" then completedStep params
              else if m = "du" then duStep series params
              else .ok []
          | _ => .ok []
  | _ => .ok []

deriving instance DecidableEq for Except

/-! ## Interval normalizer

`tvstreamer/intervals.py`, `validate` (lines 29-51), on code-point lists.
Python `raise ValueError(msg)` is the `Except.error` branch. -/

def pyIsDigitStr (s : List Char) : Bool := !s.isEmpty && s.all Char.isDigit

def pyStrip (s : List Char) : List Char :=
  ((s.dropWhile Char.isWhitespace).reverse.dropWhile Char.isWhitespace).reverse

def pyLower (s : List Char) : List Char := s.map Char.toLower

def pyUpper (s : List Char) : List Char := s.map Char.toUpper

def pyEndsWith (s suffix : List Char) : Bool := startsWithList suffix.reverse s.reverse

/-- Python slice `s[:-n]`. -/
def dropRightList (s : List Char) (n : Nat) : List Char := s.take (s.length - n)

def ALLOWED_INTERVALS : List (List Char) :=
  ["1", "3", "5", "15", "30", "60", "120", "240", "D", "W", "M"].map String.data

def intervalErrMsg (raw : List Char) : List Char := "Unsupported interval: ".data ++ raw

def validate (raw : List Char) : Except (List Char) (List Char) :=
  let cleaned := pyLower (pyStrip raw)
  let cleaned :=
    if pyEndsWith cleaned ['m'] then dropRightList cleaned 1
    else if pyEndsWith cleaned ['h'] && pyIsDigitStr (dropRightList cleaned 1) then
      natToChars (charsToNat (dropRightList cleaned 1) * 60)
    else if pyEndsWith cleaned ['d'] && pyIsDigitStr (dropRightList cleaned 1) then
      natToChars (charsToNat (dropRightList cleaned 1) * 1440)
    else if pyEndsWith cleaned ['w'] && pyIsDigitStr (dropRightList cleaned 1) then
      natToChars (charsToNat (dropRightList cleaned 1) * 10080)
    else if pyEndsWith cleaned ['m', 'o'] && pyIsDigitStr (dropRightList cleaned 2) then
      ['M']
    else cleaned
  if pyIsDigitStr cleaned then
    if !ALLOWED_INTERVALS.contains cleaned then .error (intervalErrMsg raw)
    else .ok cleaned
  else
    let up := pyUpper cleaned
    if !ALLOWED_INTERVALS.contains up then .error (intervalErrMsg raw)
    else .ok up

/-! ## History (countback) parameters on the wire

The `history` argument of each `create_series` frame the code sends. -/

/-- `TvWSClient.__init__` (wsclient.py lines 126-129): `None` or `<= 0`
becomes 300, anything else is kept. -/
def wsInitBars (nInitBars : Option ℤ) : ℤ :=
  match nInitBars with
  | none => 300
  | some v => if v ≤ 0 then 300 else v

/-- History sent by `TvWSClient._subscribe` (wsclient.py line 297):
`max(1, self._n_init_bars)`. -/
def wsCreateSeriesHistory (nInitBars : Option ℤ) : ℤ := max 1 (wsInitBars nInitBars)

/-- History sent by `TvWSClient._fetch_history` (wsclient.py line 475):
`max(1, n_bars)`. -/
def wsFetchHistoryHistory (nBars : ℤ) : ℤ := max 1 nBars

/-- History sent by `historic._fetch_history` (historic.py line 121): the
requested `limit`, unmodified. -/
def historicCreateSeriesHistory (lim : ℤ) : ℤ := lim

/-- History sent by `TradingViewConnection.subscribe_candles`
(connection.py line 132): the constant 300. -/
def connCreateSeriesHistory : ℤ := 300

/-! ## Reconnect backoff

`tvstreamer/streamer.py`, `CandleStream._run` (lines 59-105): on each failure
`attempt += 1`, then `delay = min(self._delay * (2 ** attempt),
RECONNECT_MAX_DELAY)` and `delay *= 0.8 + random.random() * 0.4`; a
successful connect runs `attempt = 0`. -/

/-- Modelled from the spec: `tvstreamer/settings.py` (the module defining
`RECONNECT_MAX_DELAY`) is not under `src/`; the spec caps the backoff delay
at 60 seconds. -/
def RECONNECT_MAX_DELAY : ℚ := 60

/-- Attempt counter update of `_run`: reset on success, incremented on
failure. -/
def reconnectAttemptAfter (attempt : ℕ) (ok : Bool) : ℕ :=
  if ok then 0 else attempt + 1

/-- The un-jittered sleep computed for the given consecutive-failure count. -/
def backoffDelay (initialDelay : ℚ) (attempt : ℕ) : ℚ :=
  min (initialDelay * 2 ^ attempt) RECONNECT_MAX_DELAY

/-- The jitter applied afterwards, `random.random()` yielding `r ∈ [0, 1)`. -/
def jitteredDelay (d r : ℚ) : ℚ := d * (4 / 5 + r * (2 / 5))

/-- Delay slept before the k-th retry (`k ≥ 1`) when every connect fails:
`attempt` has just been incremented to `k`. -/
def failureDelay (initialDelay : ℚ) (k : ℕ) : ℚ := backoffDelay initialDelay k

/-- The sequence the spec claims for the default 1 s initial delay:
1, 2, 4, 8, 16, 32, 60, 60, … before the k-th retry (`k ≥ 1`). -/
def specClaimedDelay (k : ℕ) : ℚ := min (2 ^ (k - 1)) 60

/-! ## Historic fetcher concurrency cap

`tvstreamer/historic.py`: `_websocket_semaphore = asyncio.Semaphore(3)`
(line 33) and `get_historic_candles` (lines 247-269), which raises
`TooManyRequestsError` when `sem.locked()` (counter at zero) and otherwise
acquires; `sem.release()` runs in the `finally`.  The check and the
non-blocking acquire run without an intervening suspension point, so the pair
is atomic under the event loop; `live` counts sessions between acquire and
release. -/

structure FetcherState where
  live : ℕ
  permits : ℕ

def fetcherInit : FetcherState := ⟨0, 3⟩

/-- `get_historic_candles` entry: second component is `false` when the call
raises `TooManyRequestsError` (state untouched, the call never queues),
`true` when it acquired a permit and the fetch session starts. -/
def fetcherStart (s : FetcherState) : FetcherState × Bool :=
  if s.permits = 0 then (s, false)
  else ({ live := s.live + 1, permits := s.permits - 1 }, true)

/-- The `finally: sem.release()` at the end of a live session. -/
def fetcherFinish (s : FetcherState) : FetcherState :=
  if 0 < s.live then { live := s.live - 1, permits := s.permits + 1 } else s

inductive FetcherOp where
  | start
  | finish

def fetcherRun (ops : List FetcherOp) : FetcherState :=
  ops.foldl
    (fun s op =>
      match op with
      | .start => (fetcherStart s).1
      | .finish => fetcherFinish s)
    fetcherInit

/-! ## Client connect guard

`TvWSClient.connect` (wsclient.py lines 154-173).  Its first statement raises
`RuntimeError("Client already connected")` when `self._ws is not None`; only
afterwards does it open the transport, run `_handshake` (four frames) and
`_subscribe_all` (three frames per subscription) and start the reader thread.
Frames are modelled by their method names, which is all the claim needs. -/

structure WsClientState where
  wsConnected : Bool
  subs : List (String × String)
  sentMethods : List String

def wsHandshakeMethods : List String :=
  ["set_auth_token", "chart_create_session", "quote_create_session", "quote_set_fields"]

def wsSubscribeMethods (subs : List (String × String)) : List String :=
  subs.flatMap fun _ => ["quote_add_symbols", "resolve_symbol", "create_series"]

def wsConnect (st : WsClientState) : Except String WsClientState :=
  if st.wsConnected then .error "Client already connected"
  else
    .ok { st with
          wsConnected := true,
          sentMethods := st.sentMethods ++ wsHandshakeMethods ++ wsSubscribeMethods st.subs }

/-! ## Fixed payloads used by the claims -/

/-- Spec scenario 3 payload (already parsed): a `du` frame whose `p[1]` is an
object keyed by series id, holding `s[0].v = [1600000000, 1, 2, 0.5, 1.5,
100]` and `lbs.bar_close_time`. -/
def scen3Payload : Json :=
  .obj [("m", .str "du"),
        ("p", .arr [.str "cs_x",
          .obj [("s1", .obj [
            ("s", .arr [.obj [("i", .num 1),
              ("v", .arr [.num 1600000000, .num 1, .num 2, .num (1 / 2), .num (3 / 2),
                          .num 100])]]),
            ("t", .str "s1"),
            ("lbs", .obj [("bar_close_time", .num 1600000060)])])]])]

/-- The `Bar` event spec scenario 3 expects from that payload. -/
def scen3ExpectedBar : BarE :=
  ⟨1600000000, .num 1, .num 2, .num (1 / 2), .num (3 / 2), .num 100, "SYM", "1", false⟩

/-- A `du` frame of the flat shape `_handle_payload` actually consumes:
`p[0]` the series id, `p[1]` a list of value lists. -/
def duMsg (sid : String) (bars : List Json) : Json :=
  .obj [("m", .str "du"), ("p", .arr [.str sid, .arr bars])]

/-- A `qsd` frame with the given symbol and `v` fields. -/
def qsdMsg (sym : String) (vfields : List (String × Json)) : Json :=
  .obj [("m", .str "qsd"),
        ("p", .arr [.str "qs_x", .obj [("n", .str sym), ("v", .obj vfields)]])]

/-! # Theorems: supporting lemmas, then the claims -/

theorem natToCharsAux_eq_digits (fuel n : Nat) (h : n ≤ fuel) :
    natToCharsAux fuel n = (Nat.digits 10 n).map digitChar := by
  induction fuel generalizing n with
  | zero =>
      have : n = 0 := Nat.le_zero.mp h
      subst this
      simp [natToCharsAux, Nat.digits_zero]
  | succ fuel ih =>
      by_cases hn : n = 0
      · subst hn
        simp [natToCharsAux, Nat.digits_zero]
      · have h1 : 0 < n := Nat.pos_of_ne_zero hn
        rw [Nat.digits_def' (by norm_num : 1 < 10) h1]
        have hdiv : n / 10 ≤ fuel := by
          have := Nat.div_lt_self h1 (by norm_num : 1 < 10)
          omega
        simp only [natToCharsAux, hn, if_false, List.map_cons]
        rw [ih _ hdiv]

theorem natToChars_eq_digits (n : Nat) :
    natToChars n = if n = 0 then ['0'] else ((Nat.digits 10 n).reverse.map digitChar) := by
  unfold natToChars
  by_cases h : n = 0
  · simp [h]
  · simp only [h, if_false]
    rw [natToCharsAux_eq_digits n n le_rfl, List.map_reverse]

theorem toNat_digitChar {d : Nat} (h : d < 10) : (digitChar d).toNat = 48 + d := by
  interval_cases d <;> rfl

theorem isDigit_digitChar {d : Nat} (h : d < 10) : (digitChar d).isDigit = true := by
  interval_cases d <;> rfl

theorem charsToNat_append_digits (L : List Nat) (hL : ∀ d ∈ L, d < 10) (acc : Nat) :
    ((L.reverse.map digitChar).foldl (fun a c => 10 * a + (c.toNat - 48)) acc)
      = acc * 10 ^ L.length + Nat.ofDigits 10 L := by
  induction L generalizing acc with
  | nil => simp
  | cons d L ih =>
      have hd : d < 10 := hL d (by simp)
      have hL' : ∀ x ∈ L, x < 10 := fun x hx => hL x (by simp [hx])
      simp only [List.reverse_cons, List.map_append, List.foldl_append, List.map_cons,
        List.map_nil, List.foldl_cons, List.foldl_nil]
      rw [ih hL']
      rw [toNat_digitChar hd]
      have : 48 + d - 48 = d := by omega
      rw [this]
      rw [Nat.ofDigits_cons, List.length_cons, pow_succ]
      ring

theorem charsToNat_natToChars (n : Nat) : charsToNat (natToChars n) = n := by
  rw [natToChars_eq_digits]
  unfold charsToNat
  by_cases h : n = 0
  · subst h; rfl
  · simp only [h, if_false]
    have hdig : ∀ d ∈ Nat.digits 10 n, d < 10 := fun d hd =>
      Nat.digits_lt_base (by norm_num) hd
    rw [charsToNat_append_digits _ hdig 0]
    simp [Nat.ofDigits_digits]

theorem natToChars_all_digits (n : Nat) : ∀ c ∈ natToChars n, c.isDigit = true := by
  intro c hc
  rw [natToChars_eq_digits] at hc
  by_cases h : n = 0
  · subst h; simp at hc; subst hc; rfl
  · simp only [h, if_false, List.mem_map, List.mem_reverse] at hc
    obtain ⟨d, hd, rfl⟩ := hc
    exact isDigit_digitChar (Nat.digits_lt_base (by norm_num) hd)

theorem natToChars_ne_nil (n : Nat) : natToChars n ≠ [] := by
  rw [natToChars_eq_digits]
  by_cases h : n = 0
  · subst h; simp
  · simp only [h, if_false]
    intro hcon
    have hne : Nat.digits 10 n ≠ [] := Nat.digits_ne_nil_iff_ne_zero.mpr h
    simp at hcon
    exact hne hcon

theorem utf8Length_of_ascii {s : List Char} (h : ∀ c ∈ s, c.toNat < 128) :
    utf8Length s = s.length := by
  induction s with
  | nil => rfl
  | cons c s ih =>
      have hc : c.toNat < 128 := h c (by simp)
      have hs : ∀ x ∈ s, x.toNat < 128 := fun x hx => h x (by simp [hx])
      simp [utf8Length, utf8CharLen, hc, List.sum_cons] at ih ⊢
      rw [ih hs]
      omega

theorem matchHeader_append {b s2 : List Char} {flen hlen : Nat}
    (h : matchHeader b = some (flen, hlen)) :
    matchHeader (b ++ s2) = some (flen, hlen) := by
  rw [matchHeader_some_iff] at h
  obtain ⟨ds, tail, rfl, hne, hdig, rfl, rfl⟩ := h
  rw [matchHeader_some_iff]
  exact ⟨ds, tail ++ s2, by simp, hne, hdig, rfl, rfl⟩

theorem splitFrames_of_none {b : List Char} (h : matchHeader b = none) :
    splitFrames b = ([], b) := by
  rw [splitFrames.eq_def]
  split
  next => rfl
  next flen hlen hm => rw [h] at hm; cases hm

theorem splitFrames_of_short {b : List Char} {flen hlen : Nat}
    (h : matchHeader b = some (flen, hlen)) (hl : ¬ hlen + flen ≤ b.length) :
    splitFrames b = ([], b) := by
  rw [splitFrames.eq_def]
  split
  next hm => rfl
  next flen2 hlen2 hm =>
    rw [h] at hm
    injection hm with hm
    rw [Prod.mk.injEq] at hm
    obtain ⟨rfl, rfl⟩ := hm
    rw [dif_neg hl]

theorem splitFrames_of_frame {b : List Char} {flen hlen : Nat}
    (h : matchHeader b = some (flen, hlen)) (hl : hlen + flen ≤ b.length) :
    splitFrames b
      = ((b.drop hlen).take flen :: (splitFrames (b.drop (hlen + flen))).1,
         (splitFrames (b.drop (hlen + flen))).2) := by
  conv_lhs => rw [splitFrames.eq_def]
  split
  next hm => rw [h] at hm; cases hm
  next flen2 hlen2 hm =>
    rw [h] at hm
    injection hm with hm
    rw [Prod.mk.injEq] at hm
    obtain ⟨rfl, rfl⟩ := hm
    rw [dif_pos hl]

theorem matchHeader_wsPrependHeader (p : List Char) :
    matchHeader (wsPrependHeader p) = some (p.length, 6 + (natToChars p.length).length) := by
  rw [matchHeader_some_iff]
  exact ⟨natToChars p.length, p, rfl, natToChars_ne_nil _, natToChars_all_digits _,
    (charsToNat_natToChars _).symm, rfl⟩

theorem splitFrames_wsPrependHeader (p : List Char) :
    splitFrames (wsPrependHeader p) = ([p], []) := by
  have hhead : wsPrependHeader p
      = ('~' :: 'm' :: '~' :: (natToChars p.length ++ ['~', 'm', '~'])) ++ p := by
    simp [wsPrependHeader]
  have hlenA : ('~' :: 'm' :: '~' :: (natToChars p.length ++ ['~', 'm', '~'])).length
      = 6 + (natToChars p.length).length := by
    simp
    omega
  have hfit : (6 + (natToChars p.length).length) + p.length ≤ (wsPrependHeader p).length := by
    rw [hhead]
    simp [hlenA]
    omega
  rw [splitFrames_of_frame (matchHeader_wsPrependHeader p) hfit]
  have hdrop1 : (wsPrependHeader p).drop (6 + (natToChars p.length).length) = p := by
    conv_lhs => rw [hhead, ← hlenA]
    exact List.drop_left _ _
  have hdrop2 : (wsPrependHeader p).drop ((6 + (natToChars p.length).length) + p.length) = [] := by
    apply List.drop_eq_nil_of_le
    rw [hhead]
    simp [hlenA]
    omega
  rw [hdrop1, hdrop2]
  have hnil : splitFrames ([] : List Char) = ([], []) := splitFrames_of_none rfl
  rw [hnil]
  simp

theorem splitFrames_chunk_aux (n : Nat) :
    ∀ s1 s2 : List Char, s1.length ≤ n →
      splitFrames (s1 ++ s2)
        = ((splitFrames s1).1 ++ (splitFrames ((splitFrames s1).2 ++ s2)).1,
           (splitFrames ((splitFrames s1).2 ++ s2)).2) := by
  induction n with
  | zero =>
      intro s1 s2 h
      have : s1 = [] := List.eq_nil_of_length_eq_zero (Nat.le_zero.mp h)
      subst this
      have hnil : splitFrames ([] : List Char) = ([], []) := splitFrames_of_none rfl
      simp [hnil]
  | succ n ih =>
      intro s1 s2 hle
      cases hm : matchHeader s1 with
      | none =>
          rw [splitFrames_of_none hm]
          simp
      | some v =>
          obtain ⟨flen, hlen⟩ := v
          by_cases hl : hlen + flen ≤ s1.length
          · have hm2 : matchHeader (s1 ++ s2) = some (flen, hlen) := matchHeader_append hm
            have hl2 : hlen + flen ≤ (s1 ++ s2).length := by
              rw [List.length_append]; omega
            have h7 : 7 ≤ hlen := matchHeader_hlen_le hm
            rw [splitFrames_of_frame hm hl, splitFrames_of_frame hm2 hl2]
            have hdropPay : (s1 ++ s2).drop hlen = s1.drop hlen ++ s2 := by
              rw [List.drop_append_eq_append_drop]
              have h0 : hlen - s1.length = 0 := by omega
              rw [h0]
              simp
            have hpay : ((s1 ++ s2).drop hlen).take flen = (s1.drop hlen).take flen := by
              rw [hdropPay, List.take_append_eq_append_take]
              have h0 : flen - (s1.drop hlen).length = 0 := by
                rw [List.length_drop]; omega
              rw [h0]
              simp
            have hrest : (s1 ++ s2).drop (hlen + flen) = s1.drop (hlen + flen) ++ s2 := by
              rw [List.drop_append_eq_append_drop]
              have h0 : hlen + flen - s1.length = 0 := by omega
              rw [h0]
              simp
            have hlen1 : (s1.drop (hlen + flen)).length ≤ n := by
              rw [List.length_drop]; omega
            have hih := ih (s1.drop (hlen + flen)) s2 hlen1
            rw [hpay, hrest, hih]
            simp
          · rw [splitFrames_of_short hm hl]
            simp

theorem splitFrames_chunk (s1 s2 : List Char) :
    splitFrames (s1 ++ s2)
      = ((splitFrames s1).1 ++ (splitFrames ((splitFrames s1).2 ++ s2)).1,
         (splitFrames ((splitFrames s1).2 ++ s2)).2) :=
  splitFrames_chunk_aux s1.length s1 s2 le_rfl

/-- C1, counterexample: on the one-character payload `é` (UTF-8 length 2,
code-point count 1) the wsclient and historic encoders advertise length 1,
not the UTF-8 byte length the claim states; `encode` as claimed is
`specEncodeByteLen`. -/
theorem c1_encode_counterexample :
    wsPrependHeader ['é'] ≠ specEncodeByteLen ['é']
      ∧ tvMsgHeader ['é'] ≠ specEncodeByteLen ['é']
      ∧ utf8Length ['é'] = 2 ∧ (['é'] : List Char).length = 1 := by
  refine ⟨?_, ?_, by decide, by decide⟩ <;> decide

/-- C1, amended: `connection.py` advertises the UTF-8 byte length;
`wsclient.py` and `historic.py` advertise the code-point count `len(payload)`,
which coincides with the UTF-8 byte length exactly when the payload is pure
ASCII (and every frame body the client itself builds is ASCII JSON). -/
theorem c1_encode_header_length :
    (∀ p : List Char, connPrependHeader p = specEncodeByteLen p)
      ∧ (∀ p : List Char, wsPrependHeader p
          = '~' :: 'm' :: '~' :: (natToChars p.length ++ ('~' :: 'm' :: '~' :: p)))
      ∧ (∀ p : List Char, tvMsgHeader p = wsPrependHeader p)
      ∧ (∀ p : List Char, (∀ c ∈ p, c.toNat < 128) →
          wsPrependHeader p = specEncodeByteLen p ∧ tvMsgHeader p = specEncodeByteLen p) := by
  refine ⟨fun p => rfl, fun p => rfl, fun p => rfl, fun p h => ?_⟩
  have : utf8Length p = p.length := utf8Length_of_ascii h
  constructor <;> simp [wsPrependHeader, tvMsgHeader, specEncodeByteLen, this]

theorem c1_encode_header_length_witness :
    wsPrependHeader ['a'] = specEncodeByteLen ['a'] :=
  (c1_encode_header_length.2.2.2 ['a'] (by decide)).1

/-- C2, counterexample: with the default 1 s initial delay, the first retry
after a failure sleeps (un-jittered) `min(1 * 2^1, 60) = 2` seconds, not the
1 second the claimed sequence starts with; even with ±20% jitter the code
waits at least 1.6 s while the claim allows at most 1.2 s. -/
theorem c2_backoff_counterexample :
    failureDelay 1 1 = 2 ∧ specClaimedDelay 1 = 1
      ∧ jitteredDelay (failureDelay 1 1) 0 = 8 / 5
      ∧ ¬ jitteredDelay (failureDelay 1 1) 0 ≤ jitteredDelay (specClaimedDelay 1) 1 := by
  refine ⟨?_, ?_, ?_, ?_⟩ <;>
    norm_num [failureDelay, backoffDelay, RECONNECT_MAX_DELAY, specClaimedDelay, jitteredDelay]

/-- C2, amended: the un-jittered delay before the k-th consecutive retry is
`min(2^k, 60)` — 2, 4, 8, 16, 32, 60, 60, … — doubling while below the cap,
capped at 60 s (`RECONNECT_MAX_DELAY`, spec-modelled), jittered by a factor
in `[0.8, 1.2)`, and the attempt counter resets to 0 on a successful
connect. -/
theorem c2_backoff_behavior :
    (∀ k : ℕ, failureDelay 1 k = min (2 ^ k) 60)
      ∧ (∀ k : ℕ, failureDelay 1 k ≤ 60)
      ∧ (∀ k : ℕ, 1 ≤ k → k ≤ 4 → failureDelay 1 (k + 1) = 2 * failureDelay 1 k)
      ∧ (∀ k : ℕ, 6 ≤ k → failureDelay 1 k = 60)
      ∧ (∀ d r : ℚ, 0 ≤ r → r < 1 → 0 < d →
          (4 / 5) * d ≤ jitteredDelay d r ∧ jitteredDelay d r < (6 / 5) * d)
      ∧ (∀ a : ℕ, reconnectAttemptAfter a true = 0)
      ∧ (∀ a : ℕ, reconnectAttemptAfter a false = a + 1) := by
  refine ⟨?_, ?_, ?_, ?_, ?_, fun a => rfl, fun a => rfl⟩
  · intro k
    simp [failureDelay, backoffDelay, RECONNECT_MAX_DELAY]
  · intro k
    simp only [failureDelay, backoffDelay, RECONNECT_MAX_DELAY]
    exact min_le_right _ _
  · intro k h1 h4
    interval_cases k <;>
      norm_num [failureDelay, backoffDelay, RECONNECT_MAX_DELAY]
  · intro k h6
    simp only [failureDelay, backoffDelay, RECONNECT_MAX_DELAY, one_mul]
    have h64 : (64 : ℚ) ≤ 2 ^ k := by
      calc (64 : ℚ) = 2 ^ 6 := by norm_num
      _ ≤ 2 ^ k := by
        apply pow_le_pow_right₀ (by norm_num) h6
    have : (60 : ℚ) ≤ 2 ^ k := by linarith
    simp [min_eq_right this]
  · intro d r hr0 hr1 hd
    constructor
    · have : (4 : ℚ) / 5 ≤ 4 / 5 + r * (2 / 5) := by nlinarith
      calc (4 / 5) * d = d * (4 / 5) := by ring
      _ ≤ d * (4 / 5 + r * (2 / 5)) := by nlinarith
      _ = jitteredDelay d r := rfl
    · have : 4 / 5 + r * (2 / 5) < (6 : ℚ) / 5 := by nlinarith
      calc jitteredDelay d r = d * (4 / 5 + r * (2 / 5)) := rfl
      _ < d * (6 / 5) := by nlinarith
      _ = (6 / 5) * d := by ring

theorem c2_backoff_behavior_witness :
    failureDelay 1 2 = 2 * failureDelay 1 1
      ∧ ((4 : ℚ) / 5) * 2 ≤ jitteredDelay 2 (1 / 2) ∧ jitteredDelay 2 (1 / 2) < ((6 : ℚ) / 5) * 2 :=
  ⟨c2_backoff_behavior.2.2.1 1 le_rfl (by norm_num),
   (c2_backoff_behavior.2.2.2.2.1 2 (1 / 2) (by norm_num) (by norm_num) (by norm_num)).1,
   (c2_backoff_behavior.2.2.2.2.1 2 (1 / 2) (by norm_num) (by norm_num) (by norm_num)).2⟩

/-- C3, counterexample: `"1mo"` is accepted and normalizes to `"M"`, but the
normalizer rejects `"M"` itself (lowercasing turns it into `"m"`, the
minute-suffix branch strips it to the empty string), so the normalizer does
not accept its own output and `normalize (normalize "1mo")` is not
`normalize "1mo"`. -/
theorem c3_idempotent_counterexample :
    validate "1mo".data = .ok "M".data
      ∧ validate "M".data = .error "Unsupported interval: M".data := by
  constructor <;> decide

theorem validate_ok_mem {raw r : List Char} (h : validate raw = .ok r) :
    ALLOWED_INTERVALS.contains r = true := by
  simp only [validate] at h
  split_ifs at h <;> injection h with h <;> subst h <;> simp_all

/-- C3, amended: for every accepted input whose normalized code is not `"M"`,
re-normalizing is a no-op (the normalizer accepts the output and returns it
unchanged); inputs normalizing to `"M"` are the single exception. -/
theorem c3_idempotent_except_M {x r : List Char}
    (hx : validate x = .ok r) (hM : r ≠ ['M']) : validate r = .ok r := by
  have hmem : r ∈ ALLOWED_INTERVALS := by
    have := validate_ok_mem hx
    simpa using this
  simp only [ALLOWED_INTERVALS, List.map_cons, List.map_nil, List.mem_cons,
    List.mem_singleton, List.not_mem_nil, or_false] at hmem
  rcases hmem with rfl | rfl | rfl | rfl | rfl | rfl | rfl | rfl | rfl | rfl | rfl
  · decide
  · decide
  · decide
  · decide
  · decide
  · decide
  · decide
  · decide
  · decide
  · decide
  · exact absurd (by decide) hM

theorem c3_idempotent_except_M_witness :
    validate "5".data = .ok "5".data :=
  c3_idempotent_except_M (x := "5m".data) (by decide) (by decide)

/-- C4, counterexample: a requested history of 100 (below 300 but positive)
reaches the wire unchanged in `TvWSClient` frames, and the historic fetcher
sends a requested limit of 5 unchanged — neither is rewritten to 300. -/
theorem c4_history_counterexample :
    wsCreateSeriesHistory (some 100) = 100 ∧ ¬ (300 : ℤ) ≤ wsCreateSeriesHistory (some 100)
      ∧ historicCreateSeriesHistory 5 = 5 ∧ ¬ (300 : ℤ) ≤ historicCreateSeriesHistory 5 := by
  refine ⟨by decide, by decide, by decide, by decide⟩

/-- C4, amended: `TvWSClient` rewrites only a missing or non-positive
`n_init_bars` to 300 and otherwise sends the requested value (floored at 1 by
`max(1, …)`); `connection.py` always sends the constant 300; the historic
fetcher sends the requested limit unmodified. -/
theorem c4_history_clamping :
    (∀ v : ℤ, v ≤ 0 → wsCreateSeriesHistory (some v) = 300)
      ∧ wsCreateSeriesHistory none = 300
      ∧ (∀ v : ℤ, 0 < v → wsCreateSeriesHistory (some v) = v)
      ∧ (∀ n : ℤ, wsFetchHistoryHistory n = max 1 n)
      ∧ connCreateSeriesHistory = 300
      ∧ (∀ lim : ℤ, historicCreateSeriesHistory lim = lim) := by
  refine ⟨?_, rfl, ?_, fun n => rfl, rfl, fun lim => rfl⟩
  · intro v hv
    simp only [wsCreateSeriesHistory, wsInitBars, if_pos hv]
    decide
  · intro v hv
    have hne : ¬ v ≤ 0 := by omega
    simp only [wsCreateSeriesHistory, wsInitBars, if_neg hne]
    omega

theorem c4_history_clamping_witness :
    wsCreateSeriesHistory (some 0) = 300 ∧ wsCreateSeriesHistory (some 100) = 100 :=
  ⟨c4_history_clamping.1 0 le_rfl, c4_history_clamping.2.2.1 100 (by norm_num)⟩

/-- C7: starting from the initial state (3 permits, no live session), every
interleaving of session starts and finishes keeps the number of live sessions
at most 3, and a start that arrives with the semaphore exhausted returns the
error outcome with the state untouched — it fails instead of queuing. -/
theorem c7_semaphore_cap :
    (∀ ops : List FetcherOp,
        (fetcherRun ops).live + (fetcherRun ops).permits = 3 ∧ (fetcherRun ops).live ≤ 3)
      ∧ (∀ s : FetcherState, s.permits = 0 → fetcherStart s = (s, false)) := by
  constructor
  · have hinv : ∀ (ops : List FetcherOp) (s : FetcherState), s.live + s.permits = 3 →
        (ops.foldl
          (fun s op =>
            match op with
            | .start => (fetcherStart s).1
            | .finish => fetcherFinish s)
          s).live
        + (ops.foldl
            (fun s op =>
              match op with
              | .start => (fetcherStart s).1
              | .finish => fetcherFinish s)
            s).permits = 3 := by
      intro ops
      induction ops with
      | nil => intro s hs; simpa using hs
      | cons op ops ih =>
          intro s hs
          simp only [List.foldl_cons]
          apply ih
          cases op with
          | start =>
              by_cases hp : s.permits = 0
              · simpa [fetcherStart, hp] using hs
              · simp only [fetcherStart, hp, if_false]
                show s.live + 1 + (s.permits - 1) = 3
                omega
          | finish =>
              by_cases hl : 0 < s.live
              · simp only [fetcherFinish, hl, if_true]
                show s.live - 1 + (s.permits + 1) = 3
                omega
              · simpa [fetcherFinish, hl] using hs
    intro ops
    have h2 : (fetcherRun ops).live + (fetcherRun ops).permits = 3 :=
      hinv ops fetcherInit (by decide)
    exact ⟨h2, by omega⟩
  · intro s hs
    simp [fetcherStart, hs]

theorem c7_semaphore_cap_witness :
    (fetcherRun [.start, .start, .start]).live ≤ 3
      ∧ fetcherStart (fetcherRun [.start, .start, .start])
          = (fetcherRun [.start, .start, .start], false) :=
  ⟨(c7_semaphore_cap.1 [.start, .start, .start]).2,
   c7_semaphore_cap.2 (fetcherRun [.start, .start, .start]) (by decide)⟩

/-- C8: a received frame that begins with `~m~` and contains `~h~` is echoed
back verbatim and the iteration ends there: the buffer is not extended, no
frame is parsed, and no event is appended — whatever the decoder `handle`
and prior state are. -/
theorem c8_heartbeat_echo {E : Type} (handle : List Char → List E)
    (st : ReaderState E) (raw : List Char)
    (h1 : startsWithTm raw = true) (h2 : containsHeartbeat raw = true) :
    readerStep handle st raw = { st with sent := st.sent ++ [raw] } := by
  simp [readerStep, h1, h2]

theorem c8_heartbeat_echo_witness :
    readerStep (fun _ => ([] : List Unit)) ⟨[], [], []⟩ "~m~4~m~~h~1".data
      = ⟨[], ["~m~4~m~~h~1".data], []⟩ := by
  have h := c8_heartbeat_echo (fun _ => ([] : List Unit)) ⟨[], [], []⟩ "~m~4~m~~h~1".data
    (by decide) (by decide)
  simpa using h

/-- C9: encoding then splitting yields exactly the single original payload
with empty remainder, and splitting a concatenation equals splitting the
first chunk and then the second with the remainder carried over — the frame
sequence is independent of chunk boundaries. -/
theorem c9_split_roundtrip_and_chunking :
    (∀ p : List Char, splitFrames (wsPrependHeader p) = ([p], []))
      ∧ (∀ s1 s2 : List Char,
          splitFrames (s1 ++ s2)
            = ((splitFrames s1).1 ++ (splitFrames ((splitFrames s1).2 ++ s2)).1,
               (splitFrames ((splitFrames s1).2 ++ s2)).2)) :=
  ⟨splitFrames_wsPrependHeader, splitFrames_chunk⟩

/-- C10: calling `connect()` while `self._ws is not None` raises
`RuntimeError("Client already connected")` as the very first statement: the
error result carries no successor state, so no transport is opened, no
handshake or subscribe frame is sent, and the existing state is unchanged. -/
theorem c10_connect_already_connected (st : WsClientState) (h : st.wsConnected = true) :
    wsConnect st = .error "Client already connected" := by
  simp [wsConnect, h]

theorem c10_connect_already_connected_witness :
    wsConnect ⟨true, [("BINANCE:BTCUSDT", "1")], ["set_auth_token"]⟩
      = .error "Client already connected" :=
  c10_connect_already_connected ⟨true, [("BINANCE:BTCUSDT", "1")], ["set_auth_token"]⟩ rfl

/-- C5, counterexample: fed the nested payload of spec scenario 3 with the
registry mapping `s1 ↦ (SYM, 1)`, `_handle_payload` emits nothing at all —
it reads the series id from `p[0]` (here the chart session `"cs_x"`) and
iterates `p[1]` directly, so the dict keyed by `"s1"` yields only the short
string key `"s1"`, which is skipped by the `len < 6` guard — instead of the
Candle the claim states. -/
theorem c5_du_nested_counterexample :
    handlePayload [("s1", "SYM", "1")] none scen3Payload = .ok []
      ∧ ([] : List Event) ≠ [Event.bar scen3ExpectedBar] :=
  ⟨rfl, by simp⟩

/-- C5, amended: the decoder reads the series id from `p[0]` and iterates
`p[1]` as a list of value lists `v = [ts, open, high, low, close, volume]`;
an entry whose `p[0]` is not in the registry is skipped silently (no event,
no failure), `closed` is true iff a truthy seventh element is present, and
the nested scenario-3 payload produces no event. -/
theorem c5_du_flat_decoding :
    (∀ (series : List (String × String × String)) (fb : Option ℕ) (sid : String)
        (ts o hi lo cl vo : ℚ), ¬ ts > 10 ^ 12 →
        (series.lookup sid = none →
            handlePayload series fb
              (duMsg sid [.arr [.num ts, .num o, .num hi, .num lo, .num cl, .num vo]]) = .ok [])
          ∧ (∀ sym itv : String, series.lookup sid = some (sym, itv) →
              handlePayload series fb
                (duMsg sid [.arr [.num ts, .num o, .num hi, .num lo, .num cl, .num vo]])
                = .ok [Event.bar ⟨ts, .num o, .num hi, .num lo, .num cl, .num vo, sym, itv,
                        false⟩])
          ∧ (∀ (sym itv : String) (c6 : Json), series.lookup sid = some (sym, itv) →
              handlePayload series fb
                (duMsg sid [.arr [.num ts, .num o, .num hi, .num lo, .num cl, .num vo, c6]])
                = .ok [Event.bar ⟨ts, .num o, .num hi, .num lo, .num cl, .num vo, sym, itv,
                        pyTruthy c6⟩]))
      ∧ handlePayload [("s1", "SYM", "1")] none scen3Payload = .ok [] := by
  refine ⟨?_, rfl⟩
  intro series fb sid ts o hi lo cl vo hts
  refine ⟨?_, ?_, ?_⟩
  · intro hnone
    simp [duMsg, handlePayload, duStep, duLoop, seriesLookup, pyLen, pyIndex, pyIter, pyFloat,
      List.lookup, hts, hnone,
      Except.instMonad, Except.bind, Except.map, Except.pure, Bind.bind, Pure.pure, Functor.map]
  · intro sym itv hsome
    simp [duMsg, handlePayload, duStep, duLoop, seriesLookup, pyLen, pyIndex, pyIter, pyFloat,
      pyTruthy, List.lookup, hts, hsome,
      Except.instMonad, Except.bind, Except.map, Except.pure, Bind.bind, Pure.pure, Functor.map]
    and_intros <;> rfl
  · intro sym itv c6 hsome
    simp [duMsg, handlePayload, duStep, duLoop, seriesLookup, pyLen, pyIndex, pyIter, pyFloat,
      List.lookup, hts, hsome,
      Except.instMonad, Except.bind, Except.map, Except.pure, Bind.bind, Pure.pure, Functor.map]
    and_intros <;> rfl

theorem c5_du_flat_decoding_witness :
    handlePayload [("s9", "SYM", "1")] none
        (duMsg "s9" [.arr [.num 1600000000, .num 1, .num 2, .num 3, .num 4, .num 5]])
      = .ok [Event.bar ⟨1600000000, .num 1, .num 2, .num 3, .num 4, .num 5, "SYM", "1", false⟩] :=
  ((c5_du_flat_decoding.1 [("s9", "SYM", "1")] none "s9" 1600000000 1 2 3 4 5
      (by norm_num)).2.1) "SYM" "1" (by decide)

/-- C6, counterexample: a `qsd` frame whose `v` lacks `lp` but carries
`volume` and `upd` still emits a Tick — `float(v.get("lp", 0.0))` defaults
the missing price to 0.0 — contradicting the claim that a missing `lp`
means no event. -/
theorem c6_qsd_counterexample :
    handlePayload [] none (qsdMsg "SYM" [("volume", .num 10), ("upd", .num 1600000000000)])
        = .ok [Event.tick ⟨1600000000, 0, 10, .str "SYM"⟩]
      ∧ handlePayload [] none (qsdMsg "SYM" [("volume", .num 10), ("upd", .num 1600000000000)])
        ≠ .ok [] := by
  have h : handlePayload [] none
      (qsdMsg "SYM" [("volume", .num 10), ("upd", .num 1600000000000)])
      = .ok [Event.tick ⟨1600000000, 0, 10, .str "SYM"⟩] := by
    simp [handlePayload, qsdStep, qsdFromInfo, qsdMsg, pyLen, pyIndex, pyGet, pyFloat, pyInt,
      pyTruthy, ratTrunc, List.lookup,
      Except.instMonad, Except.bind, Except.map, Except.pure, Bind.bind, Pure.pure, Functor.map]
    norm_num
  refine ⟨h, by rw [h]; simp⟩

/-- C6, amended: with `p[1] = {n, v}` present, a Tick
`⟨int(upd)/1000, lp, volume, symbol⟩` is emitted whenever `upd` is present
and truthy — a missing `lp` (or `volume`) merely defaults to 0.0 and the
Tick is still emitted; only when `upd` is absent (and the regex fallback
finds no timestamp in the payload text) is nothing emitted. -/
theorem c6_qsd_decoding :
    (∀ (series : List (String × String × String)) (fb : Option ℕ) (sym : String) (l w u : ℚ),
        sym ≠ "" → u ≠ 0 →
        handlePayload series fb
            (qsdMsg sym [("lp", .num l), ("volume", .num w), ("upd", .num u)])
          = .ok [Event.tick ⟨(ratTrunc u : ℚ) / 1000, l, w, .str sym⟩])
      ∧ (∀ (series : List (String × String × String)) (sym : String) (l w : ℚ),
          handlePayload series none (qsdMsg sym [("lp", .num l), ("volume", .num w)]) = .ok [])
      ∧ (∀ (series : List (String × String × String)) (fb : Option ℕ) (sym : String) (w u : ℚ),
          sym ≠ "" → u ≠ 0 →
          handlePayload series fb (qsdMsg sym [("volume", .num w), ("upd", .num u)])
            = .ok [Event.tick ⟨(ratTrunc u : ℚ) / 1000, 0, w, .str sym⟩]) := by
  refine ⟨?_, ?_, ?_⟩
  · intro series fb sym l w u hsym hu
    simp [handlePayload, qsdStep, qsdFromInfo, qsdMsg, pyLen, pyIndex, pyGet, pyFloat, pyInt,
      pyTruthy, List.lookup, hsym, hu,
      Except.instMonad, Except.bind, Except.map, Except.pure, Bind.bind, Pure.pure, Functor.map]
  · intro series sym l w
    simp [handlePayload, qsdStep, qsdFromInfo, qsdMsg, pyLen, pyIndex, pyGet, pyFloat, pyInt,
      pyTruthy, List.lookup,
      Except.instMonad, Except.bind, Except.map, Except.pure, Bind.bind, Pure.pure, Functor.map]
  · intro series fb sym w u hsym hu
    simp [handlePayload, qsdStep, qsdFromInfo, qsdMsg, pyLen, pyIndex, pyGet, pyFloat, pyInt,
      pyTruthy, List.lookup, hsym, hu,
      Except.instMonad, Except.bind, Except.map, Except.pure, Bind.bind, Pure.pure, Functor.map]

theorem c6_qsd_decoding_witness :
    handlePayload [] none (qsdMsg "SYM" [("lp", .num 1), ("volume", .num 2), ("upd", .num 5000)])
      = .ok [Event.tick ⟨(ratTrunc 5000 : ℚ) / 1000, 1, 2, .str "SYM"⟩] :=
  c6_qsd_decoding.1 [] none "SYM" 1 2 5000 (by decide) (by decide)

end TvStreamer
